import Mathlib

/-!
Shallow embedding of the audio-visualization pipeline of the repository
(backend/app/visualization): the UMAP projector state machine
(umap_projector.py), the audio feature extractor (audio_features.py) and
the orchestrating visualization service (visualization_service.py).

Numbers are modelled as rationals, feature vectors as lists of rationals.
The opaque external computations (the UMAP or PCA embedding transform,
and the librosa spectral transforms) are modelled as function parameters
returning an Option: a result of none models the external call raising an
exception, which the source catches.
-/

set_option autoImplicit false

namespace VoiceViz

/-- A feature vector, as produced by AudioFeatureExtractor (a numpy array
in the source). -/
abbrev Feature := List ℚ

/-- A 3D coordinate, the output space of the projector. -/
structure Vec3 where
  x : ℚ
  y : ℚ
  z : ℚ
  deriving DecidableEq

/-- A fitted embedding model (UMAP's or PCA's transform on a single
sample). The value none models the transform raising an exception, which
UMAPProjector.project catches. -/
abbrev EmbedFn := Feature → Option Vec3

/-- Componentwise clamp of a rational to the interval from 0 to 1,
modelling numpy clip with bounds 0 and 1 on one component. -/
def clipQ (q : ℚ) : ℚ := max 0 (min q 1)

/-- Componentwise clamp of a coordinate to the unit cube, modelling
numpy clip with bounds 0 and 1 (umap_projector.py line 213). -/
def clipV (v : Vec3) : Vec3 := ⟨clipQ v.x, clipQ v.y, clipQ v.z⟩

/-- Componentwise subtraction of coordinates. -/
def subV (a b : Vec3) : Vec3 := ⟨a.x - b.x, a.y - b.y, a.z - b.z⟩

/-- Componentwise division of coordinates. -/
def divV (a b : Vec3) : Vec3 := ⟨a.x / b.x, a.y / b.y, a.z / b.z⟩

/-- Componentwise arithmetic mean of a list of coordinates, modelling
numpy mean with axis 0 over the recent-projections deque
(umap_projector.py line 220). -/
def meanV (l : List Vec3) : Vec3 :=
  ⟨(l.map Vec3.x).sum / (l.length : ℚ),
   (l.map Vec3.y).sum / (l.length : ℚ),
   (l.map Vec3.z).sum / (l.length : ℚ)⟩

/-- Appending to a deque with a maximum length: the new element goes to
the right and the oldest elements are dropped from the left once the
length exceeds maxlen. -/
def pushBounded (l : List Vec3) (v : Vec3) (maxlen : ℕ) : List Vec3 :=
  let m := l ++ [v]
  m.drop (m.length - maxlen)

/-- The neutral center coordinate returned while no model is usable
(umap_projector.py lines 198, 209, 228). -/
def center : Vec3 := ⟨1/2, 1/2, 1/2⟩

/-- The floor applied to a per-axis coordinate range after fitting: a
range below 1/1000 is replaced by 1 (umap_projector.py lines 143 to 145
and 175 to 177). -/
def floorRange (r : ℚ) : ℚ := if r < 1/1000 then 1 else r

/-- Post-processing of the raw per-axis bounds observed on the
transformed training set: the max is moved so that every axis has range
at least 1/1000 (umap_projector.py lines 139 to 145). -/
def adjustBounds (lo hi : Vec3) : Vec3 × Vec3 :=
  (lo,
   ⟨lo.x + floorRange (hi.x - lo.x),
    lo.y + floorRange (hi.y - lo.y),
    lo.z + floorRange (hi.z - lo.z)⟩)

/-- The state of the background training thread of one projector. idle:
no thread running (or a finished thread). spawned: a thread was started
but has not yet read the training data. captured: the thread has read
the training list into its local array X (umap_projector.py line 124);
later list mutations, including reset, no longer affect X. -/
inductive ThreadState where
  | idle
  | spawned
  | captured (xs : List Feature)
  deriving DecidableEq

/-- Mutable state of UMAPProjector (umap_projector.py). The field
fits_started is instrumentation only: it counts the invocations of the
private start-training method and no transition reads it. The thread
field records the background thread's progress; the source holds it
implicitly in the running thread object. -/
structure UMAPProjector where
  training_samples : ℕ
  is_trained : Bool
  is_training : Bool
  training_data : List Feature
  umap_model : Option EmbedFn
  pca_fallback : Option EmbedFn
  min_coords : Option Vec3
  max_coords : Option Vec3
  recent_projections : List Vec3
  thread : ThreadState
  fits_started : ℕ

/-- The initial projector state built by the constructor with the
default target of 50 training samples (umap_projector.py lines 27 to
68). -/
def UMAPProjector.init : UMAPProjector :=
  { training_samples := 50
    is_trained := false
    is_training := false
    training_data := []
    umap_model := none
    pca_fallback := none
    min_coords := none
    max_coords := none
    recent_projections := []
    thread := .idle
    fits_started := 0 }

/-- The tag of the status dictionary returned by add_training_sample. -/
inductive StatusTag where
  | already_trained
  | training_started
  | collecting
  deriving DecidableEq

/-- The status dictionary returned by add_training_sample
(umap_projector.py lines 84 to 110); needed is the extra key present
only in the collecting case. -/
structure TrainStatus where
  status : StatusTag
  progress : ℚ
  samples : ℕ
  needed : Option ℕ
  deriving DecidableEq

/-- Effect of the private start-training method on the projector state
(umap_projector.py lines 112 to 160): flips is_training and spawns the
background thread. The thread body itself runs later, as the capture and
fit events of UMAPProjector.step. -/
def UMAPProjector.start_training (s : UMAPProjector) : UMAPProjector :=
  { s with is_training := true, thread := .spawned,
           fits_started := s.fits_started + 1 }

/-- The training set resulting from one add_training_sample call that
did not find the projector trained: the vector is appended exactly when
it has a nonzero component (umap_projector.py lines 90 to 92). -/
def appendedData (s : UMAPProjector) (f : Feature) : List Feature :=
  if ∃ q ∈ f, q ≠ 0 then s.training_data ++ [f] else s.training_data

/-- add_training_sample (umap_projector.py lines 72 to 110): when
already trained, report and change nothing; otherwise append the sample
when it has a nonzero component, and start training when the collected
count has reached the target and no fit is running. -/
def UMAPProjector.add_training_sample (s : UMAPProjector) (features : Feature) :
    TrainStatus × UMAPProjector :=
  if s.is_trained then
    (⟨.already_trained, 1, s.training_data.length, none⟩, s)
  else if s.training_samples ≤ (appendedData s features).length
      ∧ s.is_training = false then
    (⟨.training_started,
      ((appendedData s features).length : ℚ) / (s.training_samples : ℚ),
      (appendedData s features).length, none⟩,
     UMAPProjector.start_training { s with training_data := appendedData s features })
  else
    (⟨.collecting,
      ((appendedData s features).length : ℚ) / (s.training_samples : ℚ),
      (appendedData s features).length, some s.training_samples⟩,
     { s with training_data := appendedData s features })

/-- The shared tail of project once an embedding model was selected
(umap_projector.py lines 200 to 228): transform, normalize with the
stored bounds, clamp to the unit cube, append to the bounded
recent-projections deque, and return the mean of the deque when it holds
more than one entry. A failing transform, or missing bounds (which in
the source would raise inside the try block), yields the center with the
state unchanged. -/
def UMAPProjector.applyModel (s : UMAPProjector) (e : EmbedFn)
    (features : Feature) : Vec3 × UMAPProjector :=
  match e features with
  | none => (center, s)
  | some coords =>
    match s.min_coords, s.max_coords with
    | some lo, some hi =>
      let normalized := clipV (divV (subV coords lo) (subV hi lo))
      let recent := pushBounded s.recent_projections normalized 5
      let smoothed := if 1 < recent.length then meanV recent else normalized
      (smoothed, { s with recent_projections := recent })
    | _, _ => (center, s)

/-- project (umap_projector.py lines 185 to 228): the center while not
trained, otherwise the UMAP model when present, else the PCA fallback,
else the center. -/
def UMAPProjector.project (s : UMAPProjector) (features : Feature) :
    Vec3 × UMAPProjector :=
  if s.is_trained = false then (center, s)
  else
    match s.umap_model with
    | some e => s.applyModel e features
    | none =>
      match s.pca_fallback with
      | some e => s.applyModel e features
      | none => (center, s)

/-- The model_type entry of the status dictionary. -/
inductive ModelType where
  | umap
  | pca
  | nomodel
  deriving DecidableEq

/-- The status dictionary of get_status (umap_projector.py lines 242 to
251). Its training_samples key is the collected count; the target is the
training_target key. -/
structure ProjStatus where
  is_trained : Bool
  is_training : Bool
  training_samples : ℕ
  training_target : ℕ
  progress : ℚ
  model_type : ModelType
  deriving DecidableEq

/-- get_status (umap_projector.py lines 242 to 251). -/
def UMAPProjector.get_status (s : UMAPProjector) : ProjStatus :=
  { is_trained := s.is_trained
    is_training := s.is_training
    training_samples := s.training_data.length
    training_target := s.training_samples
    progress := (s.training_data.length : ℚ) / (s.training_samples : ℚ)
    model_type :=
      if s.umap_model.isSome then .umap
      else if s.pca_fallback.isSome then .pca
      else .nomodel }

/-- reset (umap_projector.py lines 253 to 264): clears flags, training
data, models, bounds and the recent-projections deque. It does not stop
a running background thread, so the thread field is untouched; the
fits_started instrumentation counter is likewise kept. -/
def UMAPProjector.reset (s : UMAPProjector) : UMAPProjector :=
  { s with is_trained := false
           is_training := false
           training_data := []
           umap_model := none
           pca_fallback := none
           min_coords := none
           max_coords := none
           recent_projections := [] }

/-- force_train (umap_projector.py lines 266 to 272): start training now
when at least 10 samples are collected and no fit is running. -/
def UMAPProjector.force_train (s : UMAPProjector) : Bool × UMAPProjector :=
  if 10 ≤ s.training_data.length ∧ s.is_training = false then
    (true, s.start_training)
  else (false, s)

/-- One atomic event of a projector history: the public calls, plus the
steps of the background thread body (umap_projector.py lines 116 to
156). capture is the thread reading the training list into its array X.
fitOk is a successful UMAP fit, carrying the fitted transform and the
raw per-axis bounds observed on the transformed training set. fitPca is
a failed UMAP fit followed by a successful PCA fallback fit (which
re-reads the current training list). fitNone is a failed UMAP fit whose
PCA fallback also does not install a model (PCA raised, or the training
list was empty by then). -/
inductive PEvent where
  | sample (f : Feature)
  | proj (f : Feature)
  | resetE
  | force
  | capture
  | fitOk (e : EmbedFn) (lo hi : Vec3)
  | fitPca (e : EmbedFn) (lo hi : Vec3)
  | fitNone

/-- Small-step semantics of one projector under its public calls and its
background thread. A fit event whose precondition does not hold (no
thread at the right stage, or no data for the fit to succeed on) leaves
the state unchanged: that interleaving cannot occur in the source. At
most one background thread is modelled; none of the theorems below
depend on an interleaving with two live threads. -/
def UMAPProjector.step (s : UMAPProjector) : PEvent → UMAPProjector
  | .sample f => (s.add_training_sample f).2
  | .proj f => (s.project f).2
  | .resetE => s.reset
  | .force => s.force_train.2
  | .capture =>
    match s.thread with
    | .spawned => { s with thread := .captured s.training_data }
    | _ => s
  | .fitOk e lo hi =>
    match s.thread with
    | .captured xs =>
      if xs = [] then s
      else
        { s with umap_model := some e
                 min_coords := some (adjustBounds lo hi).1
                 max_coords := some (adjustBounds lo hi).2
                 is_trained := true
                 is_training := false
                 thread := .idle }
    | _ => s
  | .fitPca e lo hi =>
    match s.thread with
    | .spawned | .captured _ =>
      if s.training_data = [] then
        { s with is_training := false, thread := .idle }
      else
        { s with pca_fallback := some e
                 min_coords := some (adjustBounds lo hi).1
                 max_coords := some (adjustBounds lo hi).2
                 is_trained := true
                 is_training := false
                 thread := .idle }
    | _ => s
  | .fitNone =>
    match s.thread with
    | .spawned | .captured _ => { s with is_training := false, thread := .idle }
    | _ => s

/-- Folding a history of events from a start state. -/
def UMAPProjector.run (s : UMAPProjector) (tr : List PEvent) : UMAPProjector :=
  tr.foldl UMAPProjector.step s

/-- A projector state reachable from the freshly constructed projector
by some history of calls and thread steps. -/
def ReachableP (s : UMAPProjector) : Prop :=
  ∃ tr : List PEvent, UMAPProjector.init.run tr = s

/-- Whether an event is an add_training_sample call. -/
def PEvent.isSample : PEvent → Bool
  | .sample _ => true
  | _ => false

/-! The audio feature extractor (audio_features.py), with the defaults
used by VisualizationService: sample rate 16000, 13 MFCC coefficients,
smoothing factor 3/10, buffer of half a second. -/

/-- Sample rate (audio_features.py line 30). -/
def sample_rate : ℕ := 16000

/-- Number of MFCC coefficients (audio_features.py line 31). -/
def n_mfcc : ℕ := 13

/-- Buffer size in samples: half a second (audio_features.py line 57). -/
def buffer_size : ℕ := 8000

/-- Minimum samples for extraction: 300 ms (audio_features.py line 58). -/
def min_samples : ℕ := 4800

/-- Capacity of the rolling audio deque: two seconds
(audio_features.py line 61). -/
def audio_buffer_maxlen : ℕ := 32000

/-- Exponential smoothing factor (audio_features.py line 35). -/
def smooth_factor : ℚ := 3/10

/-- Feature dimension: three MFCC blocks plus four scalars
(audio_features.py line 70). -/
def feature_dim : ℕ := n_mfcc * 3 + 4

/-- Mutable state of AudioFeatureExtractor (audio_features.py lines 61
to 66): the rolling audio buffer and the smoothing state. -/
structure AudioFeatureExtractor where
  audio_buffer : List ℚ
  smoothed_features : Option Feature
  smoothed_rms : ℚ
  smoothed_centroid : ℚ
  deriving DecidableEq

/-- The freshly constructed extractor state. -/
def AudioFeatureExtractor.init : AudioFeatureExtractor :=
  { audio_buffer := []
    smoothed_features := none
    smoothed_rms := 0
    smoothed_centroid := 0 }

/-- The quantities produced by the spectral-transform block of
extract_features (audio_features.py lines 132 to 248) before smoothing:
the concatenated raw feature vector, the per-frame means and the
normalized scalars. The whole block is opaque to this embedding (it is
librosa) and is passed in as a function parameter. -/
structure RawFeatures where
  features : Feature
  rms_mean : ℚ
  centroid_normalized : ℚ
  mfcc_mean : List ℚ
  spectral_spread : ℚ
  tonality : ℚ
  zcr_mean : ℚ
  rolloff_normalized : ℚ

/-- The opaque spectral transform: none models the try block of
extract_features raising internally (caught at audio_features.py line
267). -/
abbrev Transform := List ℚ → Option RawFeatures

/-- The result dictionary of extract_features. The last four keys are
present only on the success path (the fallback dictionaries omit them),
hence the Option. -/
structure FeatureResult where
  features : Feature
  rms : ℚ
  centroid : ℚ
  mfcc : List ℚ
  feature_dim : ℕ
  spectral_spread : Option ℚ
  tonality : Option ℚ
  zcr : Option ℚ
  rolloff : Option ℚ

/-- The defined silent result (audio_features.py lines 360 to 368). -/
def get_silent_features : FeatureResult :=
  { features := List.replicate feature_dim 0
    rms := 0
    centroid := 0
    mfcc := List.replicate n_mfcc 0
    feature_dim := feature_dim
    spectral_spread := none
    tonality := none
    zcr := none
    rolloff := none }

/-- The fallback result returned on every failure path of
extract_features (audio_features.py lines 106 to 114, 122 to 130, 270 to
278): the previous smoothed frame when one exists, the silent result
otherwise. The source repeats this dictionary literally at each site;
it is factored here. -/
def AudioFeatureExtractor.previous_or_silent (s : AudioFeatureExtractor) :
    FeatureResult :=
  match s.smoothed_features with
  | some f =>
    { features := f
      rms := s.smoothed_rms
      centroid := s.smoothed_centroid
      mfcc := List.replicate n_mfcc 0
      feature_dim := feature_dim
      spectral_spread := none
      tonality := none
      zcr := none
      rolloff := none }
  | none => get_silent_features

/-- Peak absolute amplitude of the window, modelling the max of numpy
abs (audio_features.py line 117); the windows it is applied to are
nonempty, so the base value 0 is never the winner over an actual
sample magnitude. -/
def peakAbs (audio : List ℚ) : ℚ := audio.foldr (fun v m => max |v| m) 0

/-- Exponential smoothing of the feature vector against the previous
smoothed vector (audio_features.py lines 333 to 342). -/
def smoothFeatureVec (new prev : Feature) : Feature :=
  List.zipWith (fun nv pv => smooth_factor * nv + (1 - smooth_factor) * pv)
    new prev

/-- The success tail of extract_features once the transform block ran
(audio_features.py lines 250 to 265): smooth the vector and the rms and
centroid scalars, update the smoothing state, and return the full result
dictionary. A failing transform falls back to the previous smoothed
result with the state unchanged. -/
def AudioFeatureExtractor.extractCore (s : AudioFeatureExtractor)
    (t : Transform) (audio : List ℚ) : FeatureResult × AudioFeatureExtractor :=
  match t audio with
  | none => (s.previous_or_silent, s)
  | some r =>
    let newF : Feature :=
      match s.smoothed_features with
      | none => r.features
      | some p => smoothFeatureVec r.features p
    let newRms := smooth_factor * r.rms_mean + (1 - smooth_factor) * s.smoothed_rms
    let newCen := smooth_factor * r.centroid_normalized
                    + (1 - smooth_factor) * s.smoothed_centroid
    ({ features := newF
       rms := newRms
       centroid := newCen
       mfcc := r.mfcc_mean
       feature_dim := feature_dim
       spectral_spread := some r.spectral_spread
       tonality := some r.tonality
       zcr := some r.zcr_mean
       rolloff := some r.rolloff_normalized },
     { s with smoothed_features := some newF
              smoothed_rms := newRms
              smoothed_centroid := newCen })

/-- extract_features (audio_features.py lines 84 to 278): a window
shorter than the minimum yields the previous smoothed or silent result;
a too-loud window is rescaled by its peak before the transform; a
near-silent window (peak below 1/1000) yields the previous smoothed or
silent result without running the transform. -/
def AudioFeatureExtractor.extract_features (s : AudioFeatureExtractor)
    (t : Transform) (audio : List ℚ) : FeatureResult × AudioFeatureExtractor :=
  if audio.length < min_samples then (s.previous_or_silent, s)
  else
    let mv := peakAbs audio
    if 1 < mv then s.extractCore t (audio.map (fun v => v / mv))
    else if mv < 1/1000 then (s.previous_or_silent, s)
    else s.extractCore t audio

/-- process_stream_chunk (audio_features.py lines 300 to 331): extend
the bounded rolling buffer with the chunk, and extract from the most
recent half-second window once the buffer holds the minimum amount of
audio. -/
def AudioFeatureExtractor.process_stream_chunk (s : AudioFeatureExtractor)
    (t : Transform) (chunk : List ℚ) : FeatureResult × AudioFeatureExtractor :=
  let buf0 := s.audio_buffer ++ chunk
  let buf := buf0.drop (buf0.length - audio_buffer_maxlen)
  let s' := { s with audio_buffer := buf }
  if min_samples ≤ buf.length then
    let window := if buffer_size < buf.length
                  then buf.drop (buf.length - buffer_size) else buf
    s'.extract_features t window
  else (s'.previous_or_silent, s')

/-- reset (audio_features.py lines 370 to 376): clears the rolling
buffer and all smoothing state. -/
def AudioFeatureExtractor.reset (_ : AudioFeatureExtractor) :
    AudioFeatureExtractor :=
  AudioFeatureExtractor.init

/-! The orchestrating service (visualization_service.py). -/

/-- Mutable state of VisualizationService (visualization_service.py
lines 83 to 98); the active-sessions dictionary is modelled by its
size. -/
structure VisualizationService where
  feature_extractor : AudioFeatureExtractor
  umap_projector : UMAPProjector
  frame_count : ℕ
  active_sessions : ℕ

/-- The freshly constructed service with its defaults
(visualization_service.py lines 65 to 100). -/
def VisualizationService.init : VisualizationService :=
  { feature_extractor := AudioFeatureExtractor.init
    umap_projector := UMAPProjector.init
    frame_count := 0
    active_sessions := 0 }

/-- reset (visualization_service.py lines 251 to 263): always resets the
extractor, resets the projector only when the flag is set, and clears
the frame count and the session table. -/
def VisualizationService.reset (s : VisualizationService)
    (reset_umap : Bool) : VisualizationService :=
  { feature_extractor := s.feature_extractor.reset
    umap_projector := if reset_umap then s.umap_projector.reset
                      else s.umap_projector
    frame_count := 0
    active_sessions := 0 }

/-! Predicates and concrete states used by the verification below. -/

/-- A coordinate lies in the closed unit cube. -/
def InUnit (v : Vec3) : Prop :=
  0 ≤ v.x ∧ v.x ≤ 1 ∧ 0 ≤ v.y ∧ v.y ≤ 1 ∧ 0 ≤ v.z ∧ v.z ≤ 1

/-- State invariant of the projector: every entry of the
recent-projections deque lies in the unit cube, and whenever bounds are
installed each axis has a strictly positive range (so the normalization
in project never divides by zero). -/
def PInv (s : UMAPProjector) : Prop :=
  (∀ v ∈ s.recent_projections, InUnit v) ∧
  (∀ lo hi : Vec3, s.min_coords = some lo → s.max_coords = some hi →
     lo.x < hi.x ∧ lo.y < hi.y ∧ lo.z < hi.z)

/-- Modelled from the spec: exponential smoothing of a new value against
a previous value with weight alpha, the shape the spec assigns to all
smoothing (smoothed' equals alpha times new plus one minus alpha times
smoothed). Used only to compare the source's projection smoothing
against the spec's wording. -/
def expSmoothSpec (α new prev : ℚ) : ℚ := α * new + (1 - α) * prev

/-- The projector state after 50 nonzero training samples: training has
just been triggered. -/
def s50 : UMAPProjector :=
  UMAPProjector.init.run ((List.replicate 50 ([1] : Feature)).map PEvent.sample)

/-- The same state written out field by field. -/
def s50Explicit : UMAPProjector :=
  { training_samples := 50
    is_trained := false
    is_training := true
    training_data := List.replicate 50 [1]
    umap_model := none
    pca_fallback := none
    min_coords := none
    max_coords := none
    recent_projections := []
    thread := .spawned
    fits_started := 1 }

/-- A concrete embedding model used in counterexample states. -/
def embed0 : EmbedFn := fun _ => some ⟨0, 0, 0⟩

/-- A concrete embedding model whose output is the center of each axis
of the unit bounds. -/
def embedHalf : EmbedFn := fun _ => some ⟨1/2, 1/2, 1/2⟩

/-- A concrete trained projector whose bounds are the unit cube and
whose recent-projections deque already holds the origin. -/
def sTrainedC6 : UMAPProjector :=
  { UMAPProjector.init with
      is_trained := true
      umap_model := some embedHalf
      min_coords := some ⟨0, 0, 0⟩
      max_coords := some ⟨1, 1, 1⟩
      recent_projections := [⟨0, 0, 0⟩] }

/-- A concrete service whose projector has just spawned a training
thread that has already read the training data. -/
def svcC7 : VisualizationService :=
  { VisualizationService.init with umap_projector := s50.step .capture }

/-- The amplitude normalization applied before the spectral transform:
a window whose peak exceeds 1 is rescaled by its peak
(audio_features.py lines 117 to 119). -/
def effAudio (audio : List ℚ) : List ℚ :=
  if 1 < peakAbs audio then audio.map (fun v => v / peakAbs audio) else audio

/-- A fresh projector marked trained, used to witness the
already-trained behavior. -/
def sTrainedTriv : UMAPProjector := { UMAPProjector.init with is_trained := true }

/-- A fresh projector marked as currently training, used to witness the
behavior of add_training_sample during a fit. -/
def sTrainingW : UMAPProjector := { UMAPProjector.init with is_training := true }

/-! Basic lemmas about the arithmetic helpers. -/

theorem clipQ_mem (q : ℚ) : 0 ≤ clipQ q ∧ clipQ q ≤ 1 :=
  ⟨le_max_left 0 _, max_le (by norm_num) (min_le_right q 1)⟩

theorem clipV_inUnit (v : Vec3) : InUnit (clipV v) :=
  ⟨(clipQ_mem v.x).1, (clipQ_mem v.x).2, (clipQ_mem v.y).1, (clipQ_mem v.y).2,
   (clipQ_mem v.z).1, (clipQ_mem v.z).2⟩

theorem center_inUnit : InUnit center := by
  refine ⟨?_, ?_, ?_, ?_, ?_, ?_⟩ <;> norm_num [center]

theorem meanV_singleton (v : Vec3) : meanV [v] = v := by
  simp [meanV]

theorem pushBounded_length (l : List Vec3) (v : Vec3) :
    (pushBounded l v 5).length = min (l.length + 1) 5 := by
  simp [pushBounded]
  omega

theorem pushBounded_ne_nil (l : List Vec3) (v : Vec3) : pushBounded l v 5 ≠ [] := by
  intro hnil
  have h := pushBounded_length l v
  rw [hnil] at h
  simp at h
  omega

theorem mem_pushBounded {l : List Vec3} {v w : Vec3} {m : ℕ}
    (h : w ∈ pushBounded l v m) : w ∈ l ∨ w = v := by
  have hsub : w ∈ l ++ [v] := List.drop_subset _ _ h
  rcases List.mem_append.mp hsub with h1 | h2
  · exact Or.inl h1
  · exact Or.inr (List.mem_singleton.mp h2)

theorem mean_in_unit (l : List ℚ) (hne : l ≠ [])
    (h : ∀ q ∈ l, 0 ≤ q ∧ q ≤ 1) :
    0 ≤ l.sum / (l.length : ℚ) ∧ l.sum / (l.length : ℚ) ≤ 1 := by
  have hpos : (0 : ℚ) < (l.length : ℚ) := by
    exact_mod_cast List.length_pos.mpr hne
  refine ⟨div_nonneg (List.sum_nonneg fun q hq => (h q hq).1) hpos.le, ?_⟩
  rw [div_le_one hpos]
  have hle := List.sum_le_card_nsmul l 1 fun q hq => (h q hq).2
  simpa using hle

theorem meanV_inUnit (l : List Vec3) (hne : l ≠ []) (h : ∀ v ∈ l, InUnit v) :
    InUnit (meanV l) := by
  have hmapne : ∀ g : Vec3 → ℚ, l.map g ≠ [] := by
    intro g hg
    exact hne (List.map_eq_nil_iff.mp hg)
  have hbx : ∀ q ∈ l.map Vec3.x, 0 ≤ q ∧ q ≤ 1 := by
    intro q hq
    obtain ⟨v, hv, rfl⟩ := List.mem_map.mp hq
    exact ⟨(h v hv).1, (h v hv).2.1⟩
  have hby : ∀ q ∈ l.map Vec3.y, 0 ≤ q ∧ q ≤ 1 := by
    intro q hq
    obtain ⟨v, hv, rfl⟩ := List.mem_map.mp hq
    exact ⟨(h v hv).2.2.1, (h v hv).2.2.2.1⟩
  have hbz : ∀ q ∈ l.map Vec3.z, 0 ≤ q ∧ q ≤ 1 := by
    intro q hq
    obtain ⟨v, hv, rfl⟩ := List.mem_map.mp hq
    exact ⟨(h v hv).2.2.2.2.1, (h v hv).2.2.2.2.2⟩
  have hx := mean_in_unit (l.map Vec3.x) (hmapne _) hbx
  have hy := mean_in_unit (l.map Vec3.y) (hmapne _) hby
  have hz := mean_in_unit (l.map Vec3.z) (hmapne _) hbz
  simp only [List.length_map] at hx hy hz
  exact ⟨hx.1, hx.2, hy.1, hy.2, hz.1, hz.2⟩

theorem floorRange_pos (r : ℚ) : 0 < floorRange r := by
  unfold floorRange
  split
  · norm_num
  · linarith [not_lt.mp (by assumption : ¬ r < 1/1000)]

/-! The projector invariant and its preservation. -/

/-- The invariant only reads three fields, so any operation preserving
them preserves the invariant. -/
theorem pinv_of_fields {s s' : UMAPProjector}
    (hr : s'.recent_projections = s.recent_projections)
    (hmin : s'.min_coords = s.min_coords)
    (hmax : s'.max_coords = s.max_coords)
    (hinv : PInv s) : PInv s' := by
  refine ⟨?_, ?_⟩
  · rw [hr]
    exact hinv.1
  · intro lo hi h1 h2
    rw [hmin] at h1
    rw [hmax] at h2
    exact hinv.2 lo hi h1 h2

theorem add_training_sample_keeps (s : UMAPProjector) (f : Feature) :
    (s.add_training_sample f).2.recent_projections = s.recent_projections ∧
    (s.add_training_sample f).2.min_coords = s.min_coords ∧
    (s.add_training_sample f).2.max_coords = s.max_coords := by
  unfold UMAPProjector.add_training_sample UMAPProjector.start_training
  split
  · exact ⟨rfl, rfl, rfl⟩
  · split
    · exact ⟨rfl, rfl, rfl⟩
    · exact ⟨rfl, rfl, rfl⟩

theorem applyModel_inUnit_and_inv (s : UMAPProjector) (e : EmbedFn) (f : Feature)
    (hinv : PInv s) :
    InUnit (s.applyModel e f).1 ∧ PInv (s.applyModel e f).2 := by
  unfold UMAPProjector.applyModel
  cases he : e f with
  | none => exact ⟨center_inUnit, hinv⟩
  | some coords =>
    cases hlo : s.min_coords with
    | none =>
      cases hhi : s.max_coords <;> exact ⟨center_inUnit, hinv⟩
    | some lo =>
      cases hhi : s.max_coords with
      | none => exact ⟨center_inUnit, hinv⟩
      | some hi =>
        simp only
        have hn : InUnit (clipV (divV (subV coords lo) (subV hi lo))) :=
          clipV_inUnit _
        have hmem : ∀ v ∈ pushBounded s.recent_projections
            (clipV (divV (subV coords lo) (subV hi lo))) 5, InUnit v := by
          intro v hv
          rcases mem_pushBounded hv with h1 | h2
          · exact hinv.1 v h1
          · exact h2 ▸ hn
        constructor
        · split
          · exact meanV_inUnit _ (pushBounded_ne_nil _ _) hmem
          · exact hn
        · refine ⟨hmem, ?_⟩
          intro lo' hi' h1 h2
          injection h1 with h1
          injection h2 with h2
          subst h1
          subst h2
          exact hinv.2 lo hi hlo hhi

theorem project_inUnit_and_inv (s : UMAPProjector) (f : Feature) (hinv : PInv s) :
    InUnit (s.project f).1 ∧ PInv (s.project f).2 := by
  unfold UMAPProjector.project
  split
  · exact ⟨center_inUnit, hinv⟩
  · cases s.umap_model with
    | some e => exact applyModel_inUnit_and_inv s e f hinv
    | none =>
      cases s.pca_fallback with
      | some e => exact applyModel_inUnit_and_inv s e f hinv
      | none => exact ⟨center_inUnit, hinv⟩

theorem adjustBounds_inv (lo hi : Vec3) :
    lo.x < (adjustBounds lo hi).2.x ∧ lo.y < (adjustBounds lo hi).2.y ∧
    lo.z < (adjustBounds lo hi).2.z := by
  refine ⟨?_, ?_, ?_⟩ <;>
    simpa [adjustBounds] using floorRange_pos _

theorem pinv_step (s : UMAPProjector) (ev : PEvent) (hinv : PInv s) :
    PInv (s.step ev) := by
  cases ev with
  | sample f =>
    have hk := add_training_sample_keeps s f
    exact pinv_of_fields hk.1 hk.2.1 hk.2.2 hinv
  | proj f => exact (project_inUnit_and_inv s f hinv).2
  | resetE =>
    refine ⟨?_, ?_⟩ <;> simp [UMAPProjector.step, UMAPProjector.reset]
  | force =>
    simp only [UMAPProjector.step, UMAPProjector.force_train,
      UMAPProjector.start_training]
    split
    · exact pinv_of_fields rfl rfl rfl hinv
    · exact hinv
  | capture =>
    simp only [UMAPProjector.step]
    cases s.thread with
    | idle => exact hinv
    | spawned => exact pinv_of_fields rfl rfl rfl hinv
    | captured xs => exact hinv
  | fitOk e lo hi =>
    simp only [UMAPProjector.step]
    cases s.thread with
    | idle => exact hinv
    | spawned => exact hinv
    | captured xs =>
      dsimp only
      by_cases hxs : xs = []
      · rw [if_pos hxs]
        exact hinv
      · rw [if_neg hxs]
        refine ⟨hinv.1, ?_⟩
        intro lo' hi' h1 h2
        injection h1 with h1
        injection h2 with h2
        subst h1
        subst h2
        exact adjustBounds_inv lo hi
  | fitPca e lo hi =>
    simp only [UMAPProjector.step]
    cases s.thread with
    | idle => exact hinv
    | spawned =>
      dsimp only
      by_cases hd : s.training_data = []
      · rw [if_pos hd]
        exact pinv_of_fields rfl rfl rfl hinv
      · rw [if_neg hd]
        refine ⟨hinv.1, ?_⟩
        intro lo' hi' h1 h2
        injection h1 with h1
        injection h2 with h2
        subst h1
        subst h2
        exact adjustBounds_inv lo hi
    | captured xs =>
      dsimp only
      by_cases hd : s.training_data = []
      · rw [if_pos hd]
        exact pinv_of_fields rfl rfl rfl hinv
      · rw [if_neg hd]
        refine ⟨hinv.1, ?_⟩
        intro lo' hi' h1 h2
        injection h1 with h1
        injection h2 with h2
        subst h1
        subst h2
        exact adjustBounds_inv lo hi
  | fitNone =>
    simp only [UMAPProjector.step]
    cases s.thread with
    | idle => exact hinv
    | spawned => exact pinv_of_fields rfl rfl rfl hinv
    | captured xs => exact pinv_of_fields rfl rfl rfl hinv

theorem pinv_run (tr : List PEvent) :
    ∀ s : UMAPProjector, PInv s → PInv (s.run tr) := by
  induction tr with
  | nil => intro s h; exact h
  | cons e tr ih =>
    intro s h
    have hstep := pinv_step s e h
    simpa [UMAPProjector.run] using ih (s.step e) hstep

theorem pinv_init : PInv UMAPProjector.init := by
  refine ⟨?_, ?_⟩ <;> simp [UMAPProjector.init]

theorem pinv_reachable (s : UMAPProjector) (h : ReachableP s) : PInv s := by
  obtain ⟨tr, rfl⟩ := h
  exact pinv_run tr _ pinv_init

/-- Claim C1: in every reachable projector state (untrained, training,
trained with the UMAP model or trained with the PCA fallback) and for
every feature vector, including vectors far outside the training
distribution, each of the three components of the coordinate returned
by project lies within 0 and 1 inclusive. The embedding models project
as a total function: the exception paths of the source (a raising
transform, missing bounds) are the branches returning the center, so
project never propagates an exception. -/
theorem project_within_unit_cube (s : UMAPProjector) (h : ReachableP s)
    (f : Feature) : InUnit (s.project f).1 :=
  (project_inUnit_and_inv s f (pinv_reachable s h)).1

/-- Witness for claim C1 at a concrete reachable state and input. -/
theorem project_within_unit_cube_witness :
    InUnit (UMAPProjector.init.project [7, -3]).1 :=
  project_within_unit_cube UMAPProjector.init ⟨[], rfl⟩ [7, -3]

/-! Characterization of the state reached by feeding only nonzero
training samples to a fresh projector. -/

theorem run_samples_eq (fs : List Feature) (h : ∀ f ∈ fs, ∃ q ∈ f, q ≠ 0) :
    UMAPProjector.init.run (fs.map PEvent.sample) =
      { training_samples := 50
        is_trained := false
        is_training := decide (50 ≤ fs.length)
        training_data := fs
        umap_model := none
        pca_fallback := none
        min_coords := none
        max_coords := none
        recent_projections := []
        thread := if 50 ≤ fs.length then .spawned else .idle
        fits_started := if 50 ≤ fs.length then 1 else 0 } := by
  induction fs using List.reverseRecOn with
  | nil => simp [UMAPProjector.run, UMAPProjector.init]
  | append_singleton l f ih =>
    have hl : ∀ g ∈ l, ∃ q ∈ g, q ≠ 0 := fun g hg => h g (List.mem_append_left _ hg)
    have hf : ∃ q ∈ f, q ≠ 0 :=
      h f (List.mem_append_right _ (List.mem_singleton_self f))
    have hrun : UMAPProjector.init.run ((l ++ [f]).map PEvent.sample)
        = (UMAPProjector.init.run (l.map PEvent.sample)).step (.sample f) := by
      simp [UMAPProjector.run, List.map_append, List.foldl_append]
    rw [hrun, ih hl]
    simp only [UMAPProjector.step, UMAPProjector.add_training_sample,
      UMAPProjector.start_training, appendedData, hf, if_true, List.length_append,
      List.length_singleton]
    by_cases hb : 50 ≤ l.length
    · have hb1 : 50 ≤ l.length + 1 := Nat.le_succ_of_le hb
      simp [hb, hb1, appendedData, hf]
    · by_cases hb1 : 50 ≤ l.length + 1
      · simp [hb, hb1, appendedData, hf]
      · simp [hb, hb1, appendedData, hf]

/-- Claim C2: starting from the untrained initial state with an empty
training set, a sequence of add_training_sample calls with vectors each
having a nonzero component starts training exactly once, namely at the
call that makes the collected count reach the target of 50: strictly
fewer than 50 calls start no fit, 50 or more start exactly one; and any
add_training_sample call on a state that is training or trained starts
no fit and leaves the thread and the training flag unchanged. -/
theorem training_triggered_exactly_once :
    (∀ fs : List Feature, (∀ f ∈ fs, ∃ q ∈ f, q ≠ 0) →
      (UMAPProjector.init.run (fs.map PEvent.sample)).fits_started
          = (if 50 ≤ fs.length then 1 else 0) ∧
      (UMAPProjector.init.run (fs.map PEvent.sample)).is_training
          = decide (50 ≤ fs.length) ∧
      (UMAPProjector.init.run (fs.map PEvent.sample)).is_trained = false) ∧
    (∀ (s : UMAPProjector) (f : Feature),
      s.is_training = true ∨ s.is_trained = true →
      (s.add_training_sample f).2.fits_started = s.fits_started ∧
      (s.add_training_sample f).2.thread = s.thread ∧
      (s.add_training_sample f).2.is_training = s.is_training) := by
  constructor
  · intro fs h
    rw [run_samples_eq fs h]
    exact ⟨rfl, rfl, rfl⟩
  · intro s f h
    by_cases ht : s.is_trained
    · simp [UMAPProjector.add_training_sample, ht]
    · have htr : s.is_training = true := by
        rcases h with h | h
        · exact h
        · exact absurd h ht
      simp [UMAPProjector.add_training_sample, ht, htr]

/-- Witness for claim C2: 50 nonzero samples start exactly one fit,
49 start none. -/
theorem training_triggered_exactly_once_witness :
    (UMAPProjector.init.run
        ((List.replicate 50 ([1] : Feature)).map PEvent.sample)).fits_started = 1 ∧
    (UMAPProjector.init.run
        ((List.replicate 49 ([1] : Feature)).map PEvent.sample)).fits_started = 0 := by
  have hall : ∀ n : ℕ, ∀ f ∈ List.replicate n ([1] : Feature), ∃ q ∈ f, q ≠ 0 := by
    intro n f hf
    rw [List.eq_of_mem_replicate hf]
    exact ⟨1, by simp, by norm_num⟩
  constructor
  · have h := (training_triggered_exactly_once.1
      (List.replicate 50 ([1] : Feature)) (hall 50)).1
    simpa using h
  · have h := (training_triggered_exactly_once.1
      (List.replicate 49 ([1] : Feature)) (hall 49)).1
    simpa using h

set_option maxRecDepth 4000 in
/-- The concrete just-triggered state, computed once and for all. -/
theorem s50_eq : s50 = s50Explicit := rfl

/-- Claim C3 (counterexample): the source has no training-generation
counter, so a reset does not invalidate an in-flight fit. Concretely:
after 50 nonzero samples a fit thread is spawned; the thread reads the
training data; reset then clears every observable field back to the
untrained state; when the stale fit later completes, it still installs
its model and sets is_trained, although no sample was added after the
reset. This reachable state refutes the claim that a fit superseded by
reset can never make is_trained true or install a model. -/
theorem stale_fit_installed_after_reset :
    ((s50.step .capture).reset).is_trained = false ∧
    ((s50.step .capture).reset).is_training = false ∧
    ((s50.step .capture).reset).training_data = [] ∧
    ((s50.step .capture).reset).umap_model = none ∧
    (((s50.step .capture).reset).step
        (.fitOk embed0 ⟨0, 0, 0⟩ ⟨1, 1, 1⟩)).is_trained = true ∧
    (((s50.step .capture).reset).step
        (.fitOk embed0 ⟨0, 0, 0⟩ ⟨1, 1, 1⟩)).umap_model = some embed0 ∧
    (((s50.step .capture).reset).step
        (.fitOk embed0 ⟨0, 0, 0⟩ ⟨1, 1, 1⟩)).training_data = [] := by
  rw [s50_eq]
  refine ⟨rfl, rfl, rfl, rfl, ?_, ?_, ?_⟩ <;>
    simp [UMAPProjector.step, UMAPProjector.reset, s50Explicit]

/-- Claim C3 (amended): reset clears all observable projector state, but
it does not invalidate an in-flight fit: whenever the background thread
has already captured a nonempty training set, its completion installs
the model and bounds and sets is_trained, regardless of any reset that
happened in between. -/
theorem late_fit_applies_after_reset (s : UMAPProjector) (e : EmbedFn)
    (lo hi : Vec3) (xs : List Feature)
    (hth : s.thread = .captured xs) (hne : xs ≠ []) :
    (s.step (.fitOk e lo hi)).is_trained = true ∧
    (s.step (.fitOk e lo hi)).umap_model = some e ∧
    (s.step (.fitOk e lo hi)).min_coords = some (adjustBounds lo hi).1 ∧
    (s.step (.fitOk e lo hi)).max_coords = some (adjustBounds lo hi).2 := by
  simp [UMAPProjector.step, hth, hne]

set_option maxRecDepth 4000 in
/-- Witness for the amended claim C3 at the concrete post-reset state. -/
theorem late_fit_applies_after_reset_witness :
    (((s50.step .capture).reset).step
        (.fitOk embedHalf ⟨0, 0, 0⟩ ⟨2, 2, 2⟩)).is_trained = true ∧
    (((s50.step .capture).reset).step
        (.fitOk embedHalf ⟨0, 0, 0⟩ ⟨2, 2, 2⟩)).umap_model = some embedHalf := by
  have h := late_fit_applies_after_reset ((s50.step .capture).reset) embedHalf
    ⟨0, 0, 0⟩ ⟨2, 2, 2⟩ (List.replicate 50 [1]) (by rw [s50_eq]; rfl) (by simp)
  exact ⟨h.1, h.2.1⟩

set_option maxRecDepth 4000 in
/-- Claim C5 (counterexample): in the concrete reachable state where
training has just been triggered (is_training true, is_trained false),
another add_training_sample call with a nonzero vector is not a no-op:
it grows the training set from 50 to 51 entries. -/
theorem add_sample_appends_while_training :
    s50.is_training = true ∧ s50.is_trained = false ∧
    s50.training_data.length = 50 ∧
    (s50.add_training_sample [1]).2.training_data.length = 51 := by
  rw [s50_eq]
  refine ⟨rfl, rfl, by simp [s50Explicit], ?_⟩
  simp [UMAPProjector.add_training_sample, appendedData, s50Explicit]

/-- Claim C5 (amended): while the projector is training (is_training
true, is_trained false), add_training_sample does not start a second fit
and changes no state other than the training set, to which it still
appends the vector when it has a nonzero component (and which it leaves
unchanged for an all-zero vector); the returned status is collecting. -/
theorem add_sample_while_training_appends_only (s : UMAPProjector)
    (f : Feature) (h1 : s.is_trained = false) (h2 : s.is_training = true) :
    s.add_training_sample f =
      (⟨.collecting,
        ((appendedData s f).length : ℚ) / (s.training_samples : ℚ),
        (appendedData s f).length, some s.training_samples⟩,
       { s with training_data := appendedData s f }) := by
  simp [UMAPProjector.add_training_sample, h1, h2]

/-- Witness for the amended claim C5 at a concrete training state. -/
theorem add_sample_while_training_appends_only_witness :
    (sTrainingW.add_training_sample [2]).2.training_data = [[2]] ∧
    (sTrainingW.add_training_sample [2]).1.status = .collecting ∧
    (sTrainingW.add_training_sample [2]).2.is_training = true ∧
    (sTrainingW.add_training_sample [2]).2.fits_started = 0 := by
  have h := add_sample_while_training_appends_only sTrainingW [2] rfl rfl
  rw [h]
  refine ⟨?_, rfl, rfl, rfl⟩
  simp [appendedData, sTrainingW, UMAPProjector.init]

/-- Claim C6 (counterexample): in a trained state whose deque holds the
origin (the previous projected output) and whose next two clamped
normalized projections both equal one half on each axis, project
returns 1/4 and then 1/3 on the x axis: the uniform mean of the stored
values. No exponential-average weight alpha reproduces both outputs
(the first forces alpha to be one half, the second forces one third),
so the returned coordinate is not the exponential average of the
current clamped normalized projection against the previous outputs. -/
theorem project_smoothing_not_exponential :
    (sTrainedC6.project [1]).1.x = 1/4 ∧
    ((sTrainedC6.project [1]).2.project [1]).1.x = 1/3 ∧
    ¬ ∃ α : ℚ,
      (sTrainedC6.project [1]).1.x = expSmoothSpec α (1/2) 0 ∧
      ((sTrainedC6.project [1]).2.project [1]).1.x
        = expSmoothSpec α (1/2) (sTrainedC6.project [1]).1.x := by
  have h1 : (sTrainedC6.project [1]).1.x = 1/4 := by
    norm_num [UMAPProjector.project, UMAPProjector.applyModel, sTrainedC6,
      embedHalf, UMAPProjector.init, clipV, clipQ, divV, subV, pushBounded, meanV]
  have h2 : ((sTrainedC6.project [1]).2.project [1]).1.x = 1/3 := by
    norm_num [UMAPProjector.project, UMAPProjector.applyModel, sTrainedC6,
      embedHalf, UMAPProjector.init, clipV, clipQ, divV, subV, pushBounded, meanV]
  refine ⟨h1, h2, ?_⟩
  rintro ⟨α, ha, hb⟩
  rw [h1] at ha
  rw [h1, h2] at hb
  unfold expSmoothSpec at ha hb
  linarith

/-- Claim C6 (amended): in the trained state with a UMAP model, a
transform result and installed bounds, the coordinate returned by
project is the arithmetic mean of the bounded history of the last at
most five clamped normalized projections, the current one included; the
history stores the pre-average clamped values, not the returned
averages. -/
theorem project_output_is_mean_of_history (s : UMAPProjector) (e : EmbedFn)
    (f : Feature) (c lo hi : Vec3)
    (htr : s.is_trained = true) (hm : s.umap_model = some e) (hc : e f = some c)
    (hlo : s.min_coords = some lo) (hhi : s.max_coords = some hi) :
    s.project f =
      (meanV (pushBounded s.recent_projections
          (clipV (divV (subV c lo) (subV hi lo))) 5),
       { s with
          recent_projections :=
            pushBounded s.recent_projections
              (clipV (divV (subV c lo) (subV hi lo))) 5 }) := by
  simp only [UMAPProjector.project, UMAPProjector.applyModel, htr, hm, hc, hlo, hhi]
  rw [if_neg (by simp : ¬ (true = false))]
  by_cases hlen : 1 < (pushBounded s.recent_projections
      (clipV (divV (subV c lo) (subV hi lo))) 5).length
  · rw [if_pos hlen]
  · rw [if_neg hlen]
    have h0 : s.recent_projections = [] := by
      have hlength := pushBounded_length s.recent_projections
        (clipV (divV (subV c lo) (subV hi lo)))
      rw [hlength] at hlen
      have hz : s.recent_projections.length = 0 := by omega
      exact List.length_eq_zero.mp hz
    rw [h0]
    rw [show pushBounded [] (clipV (divV (subV c lo) (subV hi lo))) 5
        = [clipV (divV (subV c lo) (subV hi lo))] from rfl, meanV_singleton]

/-- Witness for the amended claim C6 at the concrete trained state. -/
theorem project_output_is_mean_of_history_witness :
    (sTrainedC6.project [1]).1 = ⟨1/4, 1/4, 1/4⟩ := by
  have h := project_output_is_mean_of_history sTrainedC6 embedHalf [1]
    ⟨1/2, 1/2, 1/2⟩ ⟨0, 0, 0⟩ ⟨1, 1, 1⟩ rfl rfl rfl rfl rfl
  rw [h]
  norm_num [meanV, pushBounded, clipV, clipQ, divV, subV, sTrainedC6,
    UMAPProjector.init]

/-- A single step by any event other than an add_training_sample call
keeps a fully cleared idle projector cleared and idle. -/
theorem step_preserves_cleared (p : UMAPProjector) (ev : PEvent)
    (hev : ev.isSample = false)
    (h1 : p.is_trained = false) (h2 : p.is_training = false)
    (h3 : p.training_data = []) (h4 : p.thread = .idle) :
    (p.step ev).is_trained = false ∧ (p.step ev).is_training = false ∧
    (p.step ev).training_data = [] ∧ (p.step ev).thread = .idle := by
  cases ev with
  | sample f => simp [PEvent.isSample] at hev
  | proj f =>
    have hp : (p.project f).2 = p := by
      simp [UMAPProjector.project, h1]
    simp only [UMAPProjector.step, hp]
    exact ⟨h1, h2, h3, h4⟩
  | resetE =>
    simp only [UMAPProjector.step, UMAPProjector.reset]
    exact ⟨trivial, trivial, trivial, h4⟩
  | force =>
    have hc : ¬ (10 ≤ p.training_data.length ∧ p.is_training = false) := by
      rw [h3]
      simp
    simp only [UMAPProjector.step, UMAPProjector.force_train, if_neg hc]
    exact ⟨h1, h2, h3, h4⟩
  | capture =>
    simp only [UMAPProjector.step, h4]
    exact ⟨h1, h2, h3, trivial⟩
  | fitOk e lo hi =>
    simp only [UMAPProjector.step, h4]
    exact ⟨h1, h2, h3, trivial⟩
  | fitPca e lo hi =>
    simp only [UMAPProjector.step, h4]
    exact ⟨h1, h2, h3, trivial⟩
  | fitNone =>
    simp only [UMAPProjector.step, h4]
    exact ⟨h1, h2, h3, trivial⟩

theorem run_preserves_cleared :
    ∀ tr : List PEvent, (∀ ev ∈ tr, ev.isSample = false) →
    ∀ p : UMAPProjector,
      p.is_trained = false → p.is_training = false →
      p.training_data = [] → p.thread = .idle →
      (p.run tr).is_trained = false ∧ (p.run tr).is_training = false ∧
      (p.run tr).training_data = [] ∧ (p.run tr).thread = .idle := by
  intro tr
  induction tr with
  | nil =>
    intro _ p h1 h2 h3 h4
    exact ⟨h1, h2, h3, h4⟩
  | cons e tr ih =>
    intro hns p h1 h2 h3 h4
    have he := hns e (List.mem_cons_self e tr)
    have htl : ∀ ev ∈ tr, ev.isSample = false :=
      fun ev hev => hns ev (List.mem_cons_of_mem e hev)
    have hstep := step_preserves_cleared p e he h1 h2 h3 h4
    have hrec := ih htl (p.step e) hstep.1 hstep.2.1 hstep.2.2.1 hstep.2.2.2
    simpa [UMAPProjector.run] using hrec

set_option maxRecDepth 4000 in
/-- Claim C7 (counterexample): a fit in flight at the time of the
service reset with the model-reset flag true later completes and sets
is_trained, so a subsequent status call, with no sample observed after
the reset, reports is_trained true and a sample count of 0, refuting
the claim that every status call until further samples are observed
reports is_trained false. -/
theorem status_after_reset_stale_fit :
    ((svcC7.reset true).umap_projector.get_status).is_trained = false ∧
    ((svcC7.reset true).umap_projector.get_status).is_training = false ∧
    ((svcC7.reset true).umap_projector.get_status).training_samples = 0 ∧
    (((svcC7.reset true).umap_projector.step
        (.fitOk embed0 ⟨0, 0, 0⟩ ⟨1, 1, 1⟩)).get_status).is_trained = true ∧
    (((svcC7.reset true).umap_projector.step
        (.fitOk embed0 ⟨0, 0, 0⟩ ⟨1, 1, 1⟩)).get_status).training_samples = 0 :=
  ⟨rfl, rfl, rfl, rfl, rfl⟩

/-- Claim C7 (amended): after a service reset with the model-reset flag
true, provided no training thread was in flight at reset time, every
subsequent status report shows is_trained false, is_training false and
a collected count of 0, under any sequence of projector events that
contains no add_training_sample call. -/
theorem status_after_reset_reports_cleared (svc : VisualizationService)
    (tr : List PEvent)
    (hidle : svc.umap_projector.thread = .idle)
    (hns : ∀ ev ∈ tr, ev.isSample = false) :
    ((((svc.reset true).umap_projector).run tr).get_status).is_trained = false ∧
    ((((svc.reset true).umap_projector).run tr).get_status).is_training = false ∧
    ((((svc.reset true).umap_projector).run tr).get_status).training_samples
      = 0 := by
  have h0 : (svc.reset true).umap_projector = svc.umap_projector.reset := by
    simp [VisualizationService.reset]
  have hbase : (svc.umap_projector.reset).thread = .idle := by
    simp [UMAPProjector.reset, hidle]
  have h := run_preserves_cleared tr hns ((svc.reset true).umap_projector)
    (by rw [h0]; rfl) (by rw [h0]; rfl) (by rw [h0]; rfl) (by rw [h0]; exact hbase)
  refine ⟨?_, ?_, ?_⟩
  · simp [UMAPProjector.get_status, h.1]
  · simp [UMAPProjector.get_status, h.2.1]
  · simp [UMAPProjector.get_status, h.2.2.1]

/-- Witness for the amended claim C7 on a concrete event sequence. -/
theorem status_after_reset_reports_cleared_witness :
    ((((VisualizationService.init.reset true).umap_projector).run
        [.proj [1], .force, .fitNone]).get_status).is_trained = false ∧
    ((((VisualizationService.init.reset true).umap_projector).run
        [.proj [1], .force, .fitNone]).get_status).is_training = false ∧
    ((((VisualizationService.init.reset true).umap_projector).run
        [.proj [1], .force, .fitNone]).get_status).training_samples = 0 :=
  status_after_reset_reports_cleared VisualizationService.init
    [.proj [1], .force, .fitNone] rfl
    (by intro ev hev; fin_cases hev <;> rfl)

/-- Claim C8: a service reset with the model-reset flag false leaves the
projector, in particular its trained flag, unchanged, while the
extractor's audio buffer and smoothing state are cleared back to the
initial extractor state; consequently the next streaming extraction
result is the same for any two services regardless of their pre-reset
audio history. -/
theorem soft_reset_preserves_projector (s : VisualizationService) :
    (s.reset false).umap_projector = s.umap_projector ∧
    (s.reset false).umap_projector.is_trained = s.umap_projector.is_trained ∧
    (s.reset false).feature_extractor = AudioFeatureExtractor.init ∧
    ∀ (s₂ : VisualizationService) (t : Transform) (chunk : List ℚ),
      (s.reset false).feature_extractor.process_stream_chunk t chunk =
        (s₂.reset false).feature_extractor.process_stream_chunk t chunk :=
  ⟨rfl, rfl, rfl, fun _ _ _ => rfl⟩

/-- Claim C9: force_train returns true and starts a background fit
exactly when at least 10 training vectors are collected and no fit is
in progress; in every other state it returns false and leaves the
projector unchanged. -/
theorem force_train_spec (s : UMAPProjector) :
    (s.force_train.1 = true ↔
      10 ≤ s.training_data.length ∧ s.is_training = false) ∧
    (s.force_train.1 = false → s.force_train.2 = s) ∧
    (s.force_train.1 = true →
      s.force_train.2.is_training = true ∧
      s.force_train.2.thread = .spawned ∧
      s.force_train.2.fits_started = s.fits_started + 1 ∧
      s.force_train.2.training_data = s.training_data ∧
      s.force_train.2.is_trained = s.is_trained) := by
  by_cases h : 10 ≤ s.training_data.length ∧ s.is_training = false
  · unfold UMAPProjector.force_train
    rw [if_pos h]
    simp [h, UMAPProjector.start_training]
  · unfold UMAPProjector.force_train
    rw [if_neg h]
    simp [h]

/-- Witness for claim C9: on the fresh projector (0 samples collected)
force_train returns false and changes nothing. -/
theorem force_train_spec_witness :
    UMAPProjector.init.force_train.1 = false ∧
    UMAPProjector.init.force_train.2 = UMAPProjector.init := by
  have h := force_train_spec UMAPProjector.init
  have h1 : UMAPProjector.init.force_train.1 = false := rfl
  exact ⟨h1, h.2.1 h1⟩

/-- Claim C10: once the projector is trained, add_training_sample
changes nothing and reports the already-trained status with progress
exactly 1, whatever the number of stored samples. -/
theorem add_sample_already_trained (s : UMAPProjector) (f : Feature)
    (h : s.is_trained = true) :
    s.add_training_sample f =
      (⟨.already_trained, 1, s.training_data.length, none⟩, s) := by
  unfold UMAPProjector.add_training_sample
  rw [if_pos h]

/-- Witness for claim C10 at a concrete trained state. -/
theorem add_sample_already_trained_witness :
    sTrainedTriv.add_training_sample [3] =
      (⟨.already_trained, 1, 0, none⟩, sTrainedTriv) := by
  have h := add_sample_already_trained sTrainedTriv [3] rfl
  simpa [sTrainedTriv, UMAPProjector.init] using h

/-- Claim C4: extract_features is total in the model (the fallible
librosa transform is an explicit Option-valued parameter, its none
result standing for a raised and caught exception), and on every
failure path, a window shorter than the minimum, a near-silent window
below the peak threshold, or a failing transform, it returns the
previous smoothed frame when one exists and the defined all-zero silent
result otherwise, leaving the extractor state unchanged. -/
theorem extract_features_failure_fallback (s : AudioFeatureExtractor)
    (t : Transform) (audio : List ℚ)
    (h : audio.length < min_samples ∨ peakAbs audio < 1/1000
        ∨ t (effAudio audio) = none) :
    s.extract_features t audio = (s.previous_or_silent, s) ∧
    (∀ f, s.smoothed_features = some f →
      (s.extract_features t audio).1.features = f) ∧
    (s.smoothed_features = none →
      (s.extract_features t audio).1 = get_silent_features) := by
  have hmain : s.extract_features t audio = (s.previous_or_silent, s) := by
    unfold AudioFeatureExtractor.extract_features
    by_cases hlen : audio.length < min_samples
    · rw [if_pos hlen]
    · rw [if_neg hlen]
      by_cases hpk : 1 < peakAbs audio
      · have ht : t (effAudio audio) = none := by
          rcases h with h | h | h
          · exact absurd h hlen
          · linarith
          · exact h
        rw [effAudio, if_pos hpk] at ht
        simp only [if_pos hpk]
        unfold AudioFeatureExtractor.extractCore
        rw [ht]
      · rw [if_neg hpk]
        by_cases hq : peakAbs audio < 1/1000
        · rw [if_pos hq]
        · rw [if_neg hq]
          have ht : t (effAudio audio) = none := by
            rcases h with h | h | h
            · exact absurd h hlen
            · exact absurd h hq
            · exact h
          rw [effAudio, if_neg hpk] at ht
          unfold AudioFeatureExtractor.extractCore
          rw [ht]
  refine ⟨hmain, ?_, ?_⟩
  · intro f hf
    rw [hmain]
    simp [AudioFeatureExtractor.previous_or_silent, hf]
  · intro hn
    rw [hmain]
    simp [AudioFeatureExtractor.previous_or_silent, hn]

/-- Witness for claim C4 on a short window with no smoothing state. -/
theorem extract_features_failure_fallback_witness :
    AudioFeatureExtractor.init.extract_features (fun _ => none) [] =
      (AudioFeatureExtractor.init.previous_or_silent,
       AudioFeatureExtractor.init) ∧
    AudioFeatureExtractor.init.previous_or_silent = get_silent_features :=
  ⟨(extract_features_failure_fallback AudioFeatureExtractor.init
      (fun _ => none) [] (Or.inl (by norm_num [min_samples]))).1, rfl⟩

end VoiceViz
